import Mathlib

/-!
Verification of the `mulligan` retry engine.

Shallow embedding of the policy core:
  * `src/backoff.rs`   — `Backoff` trait and the `Fixed` / `Linear` / `Exponential` impls
  * `src/jitter.rs`    — `Jitter` trait and the `NoJitter` / `Full` / `Equal` / `Decorrelated` impls
  * `src/lib.rs`       — `Mulligan::execute` and `Mulligan::execute_sync` retry loops
  * `src/strategy/mod.rs`, `src/strategy/exponential.rs` — the alternate `Strategy` iteration

Modelling conventions:
  * `std::time::Duration` is modelled as a `Nat` of total nanoseconds, bounded by
    `durMax` (the total nanoseconds of `Duration::MAX`, i.e. secs `u64::MAX` and
    nanos `999_999_999`).
  * `Duration * u32` panics on overflow in Rust; it is modelled by `durMul`, which
    returns `none` for the panic.
  * `u32` exponent arithmetic (`2u32.pow(attempt)`) follows release-mode wrapping
    semantics, i.e. `2 ^ attempt % 2 ^ 32` (debug builds panic instead; either way
    the value is never saturated).
  * `rand::thread_rng().gen_range(lo..=hi)` is modelled by `genRange lo hi draw`
    where `draw : Nat` is the random draw supplied by the environment: the result
    is `lo + draw % (hi - lo + 1)` when the range is nonempty (every value of the
    range is realised by some draw), and `none` (Rust: panic "cannot sample empty
    range") when `hi < lo`.
  * Fallible computations (panics) are `Option` / an explicit `panicked` outcome.
-/

/-- Total nanoseconds of `std::time::Duration::MAX`
(`secs = u64::MAX`, `nanos = 999_999_999`). -/
def durMax : Nat := (2 ^ 64 - 1) * 1000000000 + 999999999

/-- `Duration * u32`: Rust's `Mul<u32> for Duration` panics ("overflow when
multiplying duration by scalar") when the product exceeds `Duration::MAX`;
the panic is modelled by `none`. -/
def durMul (d k : Nat) : Option Nat :=
  if d * k ≤ durMax then some (d * k) else none

/-- `rand::thread_rng().gen_range(lo..=hi)` under an explicit random draw.
Returns a value of `[lo, hi]` determined by `draw`; `none` models the panic
on an empty range (`hi < lo`). -/
def genRange (lo hi draw : Nat) : Option Nat :=
  if lo ≤ hi then some (lo + draw % (hi - lo + 1)) else none

/-- The capping pattern shared by the jitter impls in `src/jitter.rs`:
`max.map_or(delay, |max| max.min(delay))` (and, in `Decorrelated`,
`max.map_or_else(|| next, |max| max.min(next))`, which is the same function). -/
def capOf (delay : Nat) (max : Option Nat) : Nat :=
  match max with
  | none => delay
  | some m => min m delay

/-- Rust's `Result<T, E>`, the value produced by one attempt of the retried
operation. -/
inductive MResult (T E : Type) where
  | ok (t : T)
  | err (e : E)
deriving DecidableEq

/-- The `Backoff` implementors of `src/backoff.rs` (`Fixed(Duration)`,
`Linear(Duration)`, `Exponential(Duration)`), each a newtype of its base
duration. -/
inductive BackoffImpl where
  | fixed (d : Nat)
  | linear (d : Nat)
  | exponential (d : Nat)
deriving DecidableEq

/-- `Backoff::base` of `src/backoff.rs`: each impl returns its stored duration. -/
def BackoffImpl.base : BackoffImpl → Nat
  | .fixed d => d
  | .linear d => d
  | .exponential d => d

/-- `Backoff::delay` of `src/backoff.rs`:
`Fixed` returns `self.0`; `Linear` returns `self.0 * attempt`;
`Exponential` returns `self.0 * 2u32.pow(attempt)` (wrapping `u32` power,
panicking `Duration` multiplication). -/
def BackoffImpl.delay : BackoffImpl → Nat → Option Nat
  | .fixed d, _ => some d
  | .linear d, attempt => durMul d attempt
  | .exponential d, attempt => durMul d (2 ^ attempt % 2 ^ 32)

/-- The `Jitter` implementors of `src/jitter.rs`: the stateless `NoJitter`,
`Full`, `Equal`, and the stateful `Decorrelated { base, previous }`. -/
inductive JitterImpl where
  | noJitter
  | full
  | equal
  | decorrelated (base previous : Nat)
deriving DecidableEq

/-- `Decorrelated::base` of `src/jitter.rs`: constructs the stateful jitter
with `base = dur` and `previous = Duration::from_secs(0)`. -/
def Decorrelated.base (dur : Nat) : JitterImpl :=
  JitterImpl.decorrelated dur 0

/-- `Jitter::jitter` of `src/jitter.rs`, one case per implementor:
  * `NoJitter`: `max.map_or(delay, |max| max.min(delay))`;
  * `Full`: caps, then `gen_range(0..=capped)`;
  * `Equal`: caps, then `gen_range((capped / 2)..=capped)`;
  * `Decorrelated`: sets `self.previous = delay`, draws
    `gen_range(self.base..=self.previous * 3)`, and returns it capped by `max`.
The returned pair is (produced delay, jitter state after the call); `none`
models a panic (empty sampling range, or overflow of `previous * 3`). -/
def JitterImpl.jitter : JitterImpl → Nat → Option Nat → Nat → Option (Nat × JitterImpl)
  | .noJitter, delay, max, _ => some (capOf delay max, .noJitter)
  | .full, delay, max, draw =>
      (genRange 0 (capOf delay max) draw).map (fun v => (v, .full))
  | .equal, delay, max, draw =>
      (genRange (capOf delay max / 2) (capOf delay max) draw).map (fun v => (v, .equal))
  | .decorrelated base _, delay, max, draw =>
      match durMul delay 3 with
      | none => none
      | some hi =>
          (genRange base hi draw).map
            (fun next => (capOf next max, .decorrelated base delay))

/-! ## The alternate `Strategy` iteration (`src/strategy/`) -/

/-- The `Jitter` enum of `src/strategy/exponential.rs` (`Full`, `Equal`,
`Decorrelated`). -/
inductive StratJitter where
  | full
  | equal
  | decorrelated
deriving DecidableEq

/-- The `Exponential` strategy struct of `src/strategy/exponential.rs`. -/
structure StratExponential where
  attempt : Nat
  base : Nat
  maxDelay : Option Nat
  jitter : Option StratJitter
  previous : Option Nat
deriving DecidableEq

/-- `Strategy::delay` for `Exponential` in `src/strategy/exponential.rs`:
computes `dur = self.base * 2u32.pow(self.attempt)`, increments `self.attempt`,
then dispatches on `self.jitter`:
  * `None`: `self.max_delay.map(|max| max.min(dur)).unwrap_or(dur)`;
  * `Full`: `capped = self.max_delay.unwrap_or(dur).min(dur)`, draws
    `gen_range(0..=capped)`;
  * `Equal`: same `capped`, `half = capped / 2`, returns
    `half + gen_range(0..=half)`;
  * `Decorrelated`: `previous = self.previous.unwrap_or(self.base)`, draws
    `next = gen_range(self.base..=previous * 3)`, stores `self.previous = next`,
    returns `self.max_delay.map(|max| max.min(next)).unwrap_or(next)`.
Returns (delay, struct state after the call); `none` models a panic. -/
def StratExponential.delay (s : StratExponential) (draw : Nat) :
    Option (Nat × StratExponential) :=
  match durMul s.base (2 ^ s.attempt % 2 ^ 32) with
  | none => none
  | some dur =>
    let s1 : StratExponential := { s with attempt := s.attempt + 1 }
    match s.jitter with
    | none =>
        some ((match s.maxDelay with | some m => min m dur | none => dur), s1)
    | some .full =>
        (genRange 0 (min (s.maxDelay.getD dur) dur) draw).map (fun v => (v, s1))
    | some .equal =>
        (genRange 0 (min (s.maxDelay.getD dur) dur / 2) draw).map
          (fun v => (min (s.maxDelay.getD dur) dur / 2 + v, s1))
    | some .decorrelated =>
        match durMul (s.previous.getD s.base) 3 with
        | none => none
        | some hi =>
            (genRange s.base hi draw).map
              (fun next =>
                ((match s.maxDelay with | some m => min m next | none => next),
                  { s1 with previous := some next }))

/-- The `Linear` strategy struct of `src/strategy/mod.rs`
(fields `attempt`, `delay`, `max_delay`). -/
structure StratLinear where
  attempt : Nat
  delay : Nat
  maxDelay : Option Nat
deriving DecidableEq

/-- `Strategy::delay` for `Linear` in `src/strategy/mod.rs` (named `delayFn`
because the struct's `delay` field already takes the source name):
`dur = self.delay * self.attempt`, clamped to `max_delay` when `max_delay < dur`,
then `self.attempt += 1`. -/
def StratLinear.delayFn (s : StratLinear) : Option (Nat × StratLinear) :=
  match durMul s.delay s.attempt with
  | none => none
  | some dur0 =>
    let dur := match s.maxDelay with
      | some maxWait => if maxWait < dur0 then maxWait else dur0
      | none => dur0
    some (dur, { s with attempt := s.attempt + 1 })

/-! ## The retry loop (`src/lib.rs`) -/

/-- The events observable from one run of a retry loop, in order: hook calls
(`before_attempt(n)` / `after_attempt(&res, n)`), operation invocations, and
suspensions (`sleep(delay)`). -/
inductive Ev where
  | before (n : Nat)
  | invoke (n : Nat)
  | sleep (d : Nat)
  | after (n : Nat)
deriving DecidableEq

/-- Outcome of a fuel-bounded run of the retry loop: the returned
`Result<T, E>`, a panic (delay computation panicked), or fuel exhaustion
(the loop would keep going). -/
inductive ExecOut (T E : Type) where
  | ok (r : MResult T E)
  | panicked
  | fuelOut
deriving DecidableEq

/-- The policy configuration held by the `Mulligan` struct of `src/lib.rs`.
The hook closures (`before_attempt`, `after_attempt`: `Option<Box<dyn Fn ...>>`)
are modelled by their presence (`hasBefore` / `hasAfter`); a present hook's
call is recorded as a trace event. The mutable `jitterable` field is threaded
explicitly through the loop because `execute` mutates it. -/
structure Mulligan (T E : Type) where
  stopAfter : Option Nat
  -- the source field is named `until`, a Lean keyword
  untilCond : MResult T E → Bool
  backoff : BackoffImpl
  max : Option Nat
  hasBefore : Bool
  hasAfter : Bool

/-- The stop test of `Mulligan::execute` / `execute_sync`:
`self.stop_after.is_some_and(|max| attempt >= max) | (self.until)(&res)`. -/
def Mulligan.stopCheck {T E : Type} (cfg : Mulligan T E) (attempt : Nat)
    (res : MResult T E) : Bool :=
  (match cfg.stopAfter with
   | some m => decide (m ≤ attempt)
   | none => false) || cfg.untilCond res

/-- `Mulligan::calculate_delay`: `self.backoff.delay(attempt)` passed through
`self.jitterable.jitter(delay, self.max)`; returns the produced delay and the
updated jitter state, `none` for a panic. -/
def Mulligan.calculateDelay {T E : Type} (cfg : Mulligan T E) (js : JitterImpl)
    (attempt draw : Nat) : Option (Nat × JitterImpl) :=
  match cfg.backoff.delay attempt with
  | none => none
  | some delay => js.jitter delay cfg.max draw

/-- `Mulligan::execute` of `src/lib.rs`, fuel-bounded. Each iteration:
call the `before_attempt` hook if set, invoke the operation (`f attempt` is
the result of the invocation made at attempt index `attempt`), return the
result if the stop check fires, otherwise compute the delay (`draws attempt`
is the random draw available to that iteration), sleep, call the
`after_attempt` hook if set, and increment `attempt`. Produces the ordered
event trace and the outcome. -/
def Mulligan.execute {T E : Type} (cfg : Mulligan T E) (f : Nat → MResult T E)
    (draws : Nat → Nat) : Nat → JitterImpl → Nat → List Ev × ExecOut T E
  | 0, _, _ => ([], ExecOut.fuelOut)
  | fuel + 1, js, attempt =>
    if cfg.stopCheck attempt (f attempt) then
      ((if cfg.hasBefore then [Ev.before attempt] else []) ++ [Ev.invoke attempt],
        ExecOut.ok (f attempt))
    else
      match cfg.calculateDelay js attempt (draws attempt) with
      | none =>
          ((if cfg.hasBefore then [Ev.before attempt] else []) ++ [Ev.invoke attempt],
            ExecOut.panicked)
      | some (d, js') =>
          ((if cfg.hasBefore then [Ev.before attempt] else []) ++ [Ev.invoke attempt]
              ++ Ev.sleep d :: ((if cfg.hasAfter then [Ev.after attempt] else [])
              ++ (Mulligan.execute cfg f draws fuel js' (attempt + 1)).1),
            (Mulligan.execute cfg f draws fuel js' (attempt + 1)).2)

/-- `Mulligan::execute_sync` of `src/lib.rs`, fuel-bounded: the blocking
variant of the loop (`std::thread::sleep` in place of the async sleep),
transcribed separately from its own source text. -/
def Mulligan.executeSync {T E : Type} (cfg : Mulligan T E) (f : Nat → MResult T E)
    (draws : Nat → Nat) : Nat → JitterImpl → Nat → List Ev × ExecOut T E
  | 0, _, _ => ([], ExecOut.fuelOut)
  | fuel + 1, js, attempt =>
    if cfg.stopCheck attempt (f attempt) then
      ((if cfg.hasBefore then [Ev.before attempt] else []) ++ [Ev.invoke attempt],
        ExecOut.ok (f attempt))
    else
      match cfg.calculateDelay js attempt (draws attempt) with
      | none =>
          ((if cfg.hasBefore then [Ev.before attempt] else []) ++ [Ev.invoke attempt],
            ExecOut.panicked)
      | some (d, js') =>
          ((if cfg.hasBefore then [Ev.before attempt] else []) ++ [Ev.invoke attempt]
              ++ Ev.sleep d :: ((if cfg.hasAfter then [Ev.after attempt] else [])
              ++ (Mulligan.executeSync cfg f draws fuel js' (attempt + 1)).1),
            (Mulligan.executeSync cfg f draws fuel js' (attempt + 1)).2)

/-- Number of operation invocations recorded in a trace. -/
def countInvokes (tr : List Ev) : Nat :=
  tr.countP (fun e => match e with | .invoke _ => true | _ => false)

-- Concrete configurations used by the evaluation theorems below.

def cfgC1 : Mulligan Nat Nat :=
  { stopAfter := some 3, untilCond := fun _ => false, backoff := .fixed 0,
    max := none, hasBefore := false, hasAfter := false }
def cfgC6 : Mulligan Nat Nat :=
  { stopAfter := some 1, untilCond := fun _ => false, backoff := .fixed 2,
    max := none, hasBefore := false, hasAfter := false }
def fC6 : Nat → MResult Nat Nat := fun n => .err n
def trC6 : List Ev := [Ev.invoke 0, Ev.sleep 2, Ev.invoke 1]
def cfgC4 : Mulligan Nat Nat :=
  { stopAfter := some 0, untilCond := fun _ => false, backoff := .fixed 7,
    max := none, hasBefore := true, hasAfter := true }
def cfgC4b : Mulligan Nat Nat :=
  { stopAfter := some 1, untilCond := fun _ => false, backoff := .fixed 7,
    max := none, hasBefore := true, hasAfter := true }

/-! ## Shared lemmas -/

-- Basic bounds of the sampling model, shared by several developments below.

theorem genRange_bounds {lo hi draw v : Nat} (h : genRange lo hi draw = some v) :
    lo ≤ v ∧ v ≤ hi := by
  unfold genRange at h
  by_cases hle : lo ≤ hi
  · rw [if_pos hle] at h
    have hv : v = lo + draw % (hi - lo + 1) := (Option.some.injEq _ _).mp h.symm
    have hm : draw % (hi - lo + 1) < hi - lo + 1 := Nat.mod_lt _ (Nat.succ_pos _)
    omega
  · rw [if_neg hle] at h
    exact absurd h (by simp)

theorem genRange_none {lo hi draw : Nat} (h : hi < lo) : genRange lo hi draw = none := by
  unfold genRange
  rw [if_neg (by omega)]

theorem genRange_some {lo hi : Nat} (draw : Nat) (h : lo ≤ hi) :
    genRange lo hi draw = some (lo + draw % (hi - lo + 1)) := by
  unfold genRange
  rw [if_pos h]

theorem capOf_le_cap (delay C : Nat) : capOf delay (some C) ≤ C := by
  simp [capOf]

theorem execute_eq_executeSync_aux {T E : Type} (cfg : Mulligan T E)
    (f : Nat → MResult T E) (draws : Nat → Nat) (fuel : Nat) (js : JitterImpl)
    (attempt : Nat) :
    cfg.execute f draws fuel js attempt = cfg.executeSync f draws fuel js attempt := by
  induction fuel generalizing js attempt with
  | zero => rfl
  | succ n ih =>
    simp only [Mulligan.execute, Mulligan.executeSync]
    cases hs : cfg.stopCheck attempt (f attempt) with
    | true => simp [hs]
    | false =>
      cases hd : cfg.calculateDelay js attempt (draws attempt) with
      | none => simp [hs, hd]
      | some p =>
        obtain ⟨d, js'⟩ := p
        simp [hs, hd, ih]

theorem countInvokes_append (l₁ l₂ : List Ev) :
    countInvokes (l₁ ++ l₂) = countInvokes l₁ + countInvokes l₂ :=
  List.countP_append _ _ _

theorem countInvokes_pre (b : Bool) (attempt : Nat) :
    countInvokes ((if b then [Ev.before attempt] else []) ++ [Ev.invoke attempt]) = 1 := by
  cases b <;> simp [countInvokes, List.countP_cons, List.countP_nil]

theorem countInvokes_iter (b₁ b₂ : Bool) (a d : Nat) (rest : List Ev) :
    countInvokes ((if b₁ then [Ev.before a] else []) ++ [Ev.invoke a]
      ++ Ev.sleep d :: ((if b₂ then [Ev.after a] else []) ++ rest))
      = 1 + countInvokes rest := by
  cases b₁ <;> cases b₂ <;>
    simp [countInvokes, List.countP_cons, List.countP_nil, List.countP_append] <;>
    omega

-- One-step unfoldings of the loop, for the three possible iteration shapes.

theorem execute_step_stop {T E : Type} (cfg : Mulligan T E) (f : Nat → MResult T E)
    (draws : Nat → Nat) (fuel : Nat) (js : JitterImpl) (attempt : Nat)
    (hs : cfg.stopCheck attempt (f attempt) = true) :
    cfg.execute f draws (fuel + 1) js attempt =
      ((if cfg.hasBefore then [Ev.before attempt] else []) ++ [Ev.invoke attempt],
        ExecOut.ok (f attempt)) := by
  simp [Mulligan.execute, hs]

theorem execute_step_panic {T E : Type} (cfg : Mulligan T E) (f : Nat → MResult T E)
    (draws : Nat → Nat) (fuel : Nat) (js : JitterImpl) (attempt : Nat)
    (hs : cfg.stopCheck attempt (f attempt) = false)
    (hd : cfg.calculateDelay js attempt (draws attempt) = none) :
    cfg.execute f draws (fuel + 1) js attempt =
      ((if cfg.hasBefore then [Ev.before attempt] else []) ++ [Ev.invoke attempt],
        ExecOut.panicked) := by
  simp [Mulligan.execute, hs, hd]

theorem execute_step_cont {T E : Type} (cfg : Mulligan T E) (f : Nat → MResult T E)
    (draws : Nat → Nat) (fuel : Nat) (js : JitterImpl) (attempt d : Nat)
    (js' : JitterImpl)
    (hs : cfg.stopCheck attempt (f attempt) = false)
    (hd : cfg.calculateDelay js attempt (draws attempt) = some (d, js')) :
    cfg.execute f draws (fuel + 1) js attempt =
      ((if cfg.hasBefore then [Ev.before attempt] else []) ++ [Ev.invoke attempt]
          ++ Ev.sleep d :: ((if cfg.hasAfter then [Ev.after attempt] else [])
          ++ (cfg.execute f draws fuel js' (attempt + 1)).1),
        (cfg.execute f draws fuel js' (attempt + 1)).2) := by
  simp [Mulligan.execute, hs, hd]

/-- If the predicate never fires and the ceiling is `N`, then from any attempt
index `attempt ≤ N` with fuel at least `N + 1 - attempt`, a non-panicking run
returns `f N` and performs exactly `N + 1 - attempt` invocations. -/
theorem execute_ceiling_aux {T E : Type} (cfg : Mulligan T E)
    (f : Nat → MResult T E) (draws : Nat → Nat) (N : Nat)
    (hstop : cfg.stopAfter = some N) (hu : ∀ r, cfg.untilCond r = false) :
    ∀ fuel attempt js, attempt ≤ N → N + 1 ≤ attempt + fuel →
      (cfg.execute f draws fuel js attempt).2 ≠ ExecOut.panicked →
      (cfg.execute f draws fuel js attempt).2 = ExecOut.ok (f N) ∧
      countInvokes (cfg.execute f draws fuel js attempt).1 = N + 1 - attempt := by
  intro fuel
  induction fuel with
  | zero => intro attempt js hle hsum _; omega
  | succ n ih =>
    intro attempt js hle hsum hnp
    have hkey : cfg.stopCheck attempt (f attempt) = decide (N ≤ attempt) := by
      simp [Mulligan.stopCheck, hstop, hu]
    rcases Nat.lt_or_ge attempt N with hlt | hge
    · have hs : cfg.stopCheck attempt (f attempt) = false := by
        rw [hkey]; simp; omega
      cases hd : cfg.calculateDelay js attempt (draws attempt) with
      | none =>
        rw [execute_step_panic cfg f draws n js attempt hs hd] at hnp
        exact absurd rfl hnp
      | some p =>
        obtain ⟨d, js'⟩ := p
        rw [execute_step_cont cfg f draws n js attempt d js' hs hd] at hnp ⊢
        have hrec := ih (attempt + 1) js' (by omega) (by omega) hnp
        refine ⟨hrec.1, ?_⟩
        rw [countInvokes_iter, hrec.2]
        omega
    · have hA : attempt = N := by omega
      have hs : cfg.stopCheck attempt (f attempt) = true := by
        rw [hkey]; simp [hA]
      rw [execute_step_stop cfg f draws n js attempt hs]
      exact ⟨by rw [hA], by rw [countInvokes_pre]; omega⟩

/-- A run that returns `.ok r` returned the result of its final invocation:
`r = f k` where `k` is the last invoked attempt index (`attempt` plus the
number of invocations minus one), and the stop check fired at `k`. -/
theorem execute_ok_final_aux {T E : Type} (cfg : Mulligan T E)
    (f : Nat → MResult T E) (draws : Nat → Nat) :
    ∀ fuel attempt js tr r, cfg.execute f draws fuel js attempt = (tr, ExecOut.ok r) →
      1 ≤ countInvokes tr ∧ r = f (attempt + countInvokes tr - 1) ∧
      cfg.stopCheck (attempt + countInvokes tr - 1) r = true := by
  intro fuel
  induction fuel with
  | zero =>
    intro attempt js tr r h
    rw [Mulligan.execute] at h
    exact absurd (congrArg Prod.snd h) (by simp)
  | succ n ih =>
    intro attempt js tr r h
    cases hs : cfg.stopCheck attempt (f attempt) with
    | true =>
      rw [execute_step_stop cfg f draws n js attempt hs] at h
      have htr : tr = (if cfg.hasBefore then [Ev.before attempt] else [])
          ++ [Ev.invoke attempt] := (congrArg Prod.fst h).symm
      have hr : r = f attempt := by
        have h2 := congrArg Prod.snd h
        simp only at h2
        cases h2; rfl
      subst htr
      rw [countInvokes_pre]
      refine ⟨le_refl 1, by simpa using hr, by simpa [hr] using hs⟩
    | false =>
      cases hd : cfg.calculateDelay js attempt (draws attempt) with
      | none =>
        rw [execute_step_panic cfg f draws n js attempt hs hd] at h
        exact absurd (congrArg Prod.snd h) (by simp)
      | some p =>
        obtain ⟨d, js'⟩ := p
        rw [execute_step_cont cfg f draws n js attempt d js' hs hd] at h
        have htr : tr = (if cfg.hasBefore then [Ev.before attempt] else [])
            ++ [Ev.invoke attempt]
            ++ Ev.sleep d :: ((if cfg.hasAfter then [Ev.after attempt] else [])
            ++ (cfg.execute f draws n js' (attempt + 1)).1) :=
          (congrArg Prod.fst h).symm
        have hout : (cfg.execute f draws n js' (attempt + 1)).2 = ExecOut.ok r :=
          congrArg Prod.snd h
        have hrec := ih (attempt + 1) js'
          (cfg.execute f draws n js' (attempt + 1)).1 r (by rw [← hout])
        have hcount : countInvokes tr =
            1 + countInvokes (cfg.execute f draws n js' (attempt + 1)).1 := by
          rw [htr, countInvokes_iter]
        obtain ⟨h1, h2, h3⟩ := hrec
        have hidx : attempt + countInvokes tr - 1
            = attempt + 1 + countInvokes (cfg.execute f draws n js' (attempt + 1)).1 - 1 := by
          omega
        exact ⟨by omega, by rw [hidx]; exact h2, by rw [hidx]; exact h3⟩

/-! ## Claim theorems -/

/-- C7: `Mulligan::execute_sync` and `Mulligan::execute` implement identical
policy logic: for the same configuration, operation-result sequence, and
random draws, they produce the same event trace (same invocations, hook
calls, and computed sleeps) and the same outcome. -/
theorem execute_eq_executeSync (T E : Type) (cfg : Mulligan T E)
    (f : Nat → MResult T E) (draws : Nat → Nat) (fuel : Nat) (js : JitterImpl)
    (attempt : Nat) :
    cfg.execute f draws fuel js attempt = cfg.executeSync f draws fuel js attempt :=
  execute_eq_executeSync_aux cfg f draws fuel js attempt

/-- C1: with ceiling `N` (`stop_after = Some(N)`) and a stop predicate that
never returns true, a run of either loop that does not panic in delay
computation invokes the operation exactly `N + 1` times (attempts `0..=N`)
and returns the result of attempt `N`; the ceiling check is
`attempt >= ceiling`. -/
theorem execute_ceiling_invocations (T E : Type) (cfg : Mulligan T E)
    (f : Nat → MResult T E) (draws : Nat → Nat) (N fuel : Nat) (js : JitterImpl)
    (hstop : cfg.stopAfter = some N) (hu : ∀ r, cfg.untilCond r = false)
    (hfuel : N + 1 ≤ fuel)
    (hnp : (cfg.execute f draws fuel js 0).2 ≠ ExecOut.panicked) :
    countInvokes (cfg.execute f draws fuel js 0).1 = N + 1 ∧
    (cfg.execute f draws fuel js 0).2 = ExecOut.ok (f N) ∧
    countInvokes (cfg.executeSync f draws fuel js 0).1 = N + 1 ∧
    (cfg.executeSync f draws fuel js 0).2 = ExecOut.ok (f N) := by
  have h := execute_ceiling_aux cfg f draws N hstop hu fuel 0 js (Nat.zero_le N)
    (by omega) hnp
  have heq := execute_eq_executeSync_aux cfg f draws fuel js 0
  refine ⟨by rw [h.2]; omega, h.1, ?_, ?_⟩
  · rw [← heq, h.2]; omega
  · rw [← heq]; exact h.1

theorem execute_ceiling_invocations_witness :
    countInvokes (cfgC1.execute (fun _ => .err 0) (fun _ => 0) 4 .noJitter 0).1 = 4 ∧
    (cfgC1.execute (fun _ => .err 0) (fun _ => 0) 4 .noJitter 0).2 =
      ExecOut.ok (.err 0) ∧
    countInvokes (cfgC1.executeSync (fun _ => .err 0) (fun _ => 0) 4 .noJitter 0).1 = 4 ∧
    (cfgC1.executeSync (fun _ => .err 0) (fun _ => 0) 4 .noJitter 0).2 =
      ExecOut.ok (.err 0) :=
  execute_ceiling_invocations Nat Nat cfgC1 (fun _ => .err 0) (fun _ => 0) 3 4
    .noJitter rfl (fun _ => rfl) (by omega) (by decide)

/-- C6: whenever a run of either loop returns (`.ok r`), `r` is exactly the
result of the final invocation — `f k` for the last invoked attempt index
`k` — and the stop condition fired at `k`; exhausting the ceiling never
substitutes an engine-synthesized "retries exhausted" error. -/
theorem execute_returns_last_result (T E : Type) (cfg : Mulligan T E)
    (f : Nat → MResult T E) (draws : Nat → Nat) (fuel : Nat) (js : JitterImpl)
    (attempt : Nat) (tr tr' : List Ev) (r r' : MResult T E)
    (h : cfg.execute f draws fuel js attempt = (tr, ExecOut.ok r))
    (h' : cfg.executeSync f draws fuel js attempt = (tr', ExecOut.ok r')) :
    (r = f (attempt + countInvokes tr - 1) ∧
      cfg.stopCheck (attempt + countInvokes tr - 1) r = true) ∧
    (r' = f (attempt + countInvokes tr' - 1) ∧
      cfg.stopCheck (attempt + countInvokes tr' - 1) r' = true) := by
  have ha := execute_ok_final_aux cfg f draws fuel attempt js tr r h
  have hb := execute_ok_final_aux cfg f draws fuel attempt js tr' r'
    (by rw [execute_eq_executeSync_aux]; exact h')
  exact ⟨⟨ha.2.1, ha.2.2⟩, ⟨hb.2.1, hb.2.2⟩⟩

theorem execute_returns_last_result_witness :
    (fC6 1 = fC6 (0 + countInvokes trC6 - 1) ∧
      cfgC6.stopCheck (0 + countInvokes trC6 - 1) (fC6 1) = true) ∧
    (fC6 1 = fC6 (0 + countInvokes trC6 - 1) ∧
      cfgC6.stopCheck (0 + countInvokes trC6 - 1) (fC6 1) = true) :=
  execute_returns_last_result Nat Nat cfgC6 fC6 (fun _ => 0) 2 .noJitter 0
    trC6 trC6 (fC6 1) (fC6 1) (by decide) (by decide)

/-- C4 (divergence witness): the code calls the `before_attempt` hook at the
top of every iteration, before invoking the operation — including before the
very first invocation and before any decision to continue was made — contrary
to the claim (and to the hook setter's own doc comment, "it will not be called
before the first execution"). With `stop_after = Some(0)` the trace is
`[before 0, invoke 0]`: the hook fired although the loop stopped without ever
deciding to continue. With `stop_after = Some(1)` the trace is
`[before 0, invoke 0, sleep 7, after 0, before 1, invoke 1]`: `before 1` fires
after the suspension completes, not between the continue decision and the
suspension as claimed. (The `after_attempt` half of the claim — after the
sleep, before the increment — does match the code.) -/
theorem before_hook_fires_before_first_invocation :
    cfgC4.execute (fun _ => .err 0) (fun _ => 0) 1 .noJitter 0 =
      ([Ev.before 0, Ev.invoke 0], ExecOut.ok (.err 0)) ∧
    cfgC4.executeSync (fun _ => .err 0) (fun _ => 0) 1 .noJitter 0 =
      ([Ev.before 0, Ev.invoke 0], ExecOut.ok (.err 0)) ∧
    cfgC4b.execute (fun _ => .err 0) (fun _ => 0) 2 .noJitter 0 =
      ([Ev.before 0, Ev.invoke 0, Ev.sleep 7, Ev.after 0, Ev.before 1, Ev.invoke 1],
        ExecOut.ok (.err 0)) := by
  refine ⟨by decide, by decide, by decide⟩

/-- C2 (divergence witness): `Exponential::delay` computes
`base * 2u32.pow(attempt)` with no saturation. At `attempt = 31` it still
equals `base * 2^31`, but at `attempt = 32` the `u32` power wraps to `0`
(release mode; debug builds panic), yielding a zero delay rather than the
maximum representable duration; and a base of `Duration::MAX` at `attempt = 1`
overflows the `Duration` multiplication and panics rather than saturating.
The alternate `Strategy` iteration has the same arithmetic. -/
theorem exponential_delay_no_saturation :
    (BackoffImpl.exponential 1).delay 31 = some (2 ^ 31) ∧
    (BackoffImpl.exponential 1).delay 32 = some 0 ∧
    (BackoffImpl.exponential durMax).delay 1 = none ∧
    StratExponential.delay
      { attempt := 32, base := 1, maxDelay := none, jitter := none,
        previous := none } 0 =
      some (0, { attempt := 33, base := 1, maxDelay := none, jitter := none,
                 previous := none }) := by
  refine ⟨by decide, by decide, by decide, by decide⟩

/-- C3 (counterexample): in `src/jitter.rs`, `Decorrelated::base(5)` initializes
`previous` to `0`, not to the base `5`; and a call with nominal delay `7`
(no cap, draw `0`) produces output `5` yet stores `7` — the incoming nominal
delay, not the value just produced — as the new `previous`. Both halves of the
claim ("initialized to the backoff base" and "updated to the value just
produced") fail on this input. -/
theorem decorrelated_previous_counterexample :
    Decorrelated.base 5 = JitterImpl.decorrelated 5 0 ∧
    (JitterImpl.decorrelated 5 0).jitter 7 none 0 =
      some (5, JitterImpl.decorrelated 5 7) ∧
    (5 : Nat) ≠ 7 ∧ (0 : Nat) ≠ 5 := by
  refine ⟨by decide, by decide, by decide, by decide⟩

/-- C3 (amended): in the engine's `Decorrelated` jitter (`src/jitter.rs`),
`previous` is initialized to zero by `Decorrelated::base`, and every call —
whatever it outputs — stores the incoming nominal delay as the new `previous`
(the sampling range of each call is therefore `[base, 3 * nominal]` of that
same call). Only in the superseded `Strategy` iteration
(`src/strategy/exponential.rs`), and only when no cap is configured, does the
`previous` used in call `k + 1` equal the output produced in call `k` (there
it is seeded from the base on the first call and updated to the sampled
value). -/
theorem decorrelated_previous_amended :
    (∀ d : Nat, Decorrelated.base d = JitterImpl.decorrelated d 0) ∧
    (∀ (b p delay : Nat) (max : Option Nat) (draw v : Nat) (js' : JitterImpl),
        (JitterImpl.decorrelated b p).jitter delay max draw = some (v, js') →
        js' = JitterImpl.decorrelated b delay) ∧
    (∀ (s : StratExponential) (draw v : Nat) (s' : StratExponential),
        s.maxDelay = none → s.jitter = some StratJitter.decorrelated →
        s.delay draw = some (v, s') → s'.previous = some v) := by
  refine ⟨fun d => rfl, ?_, ?_⟩
  · intro b p delay max draw v js' h
    simp only [JitterImpl.jitter] at h
    cases hm : durMul delay 3 with
    | none => rw [hm] at h; exact absurd h (by simp)
    | some hi =>
      rw [hm] at h
      simp only [Option.map_eq_some'] at h
      obtain ⟨next, hn, hv⟩ := h
      exact (((Prod.mk.injEq _ _ _ _).mp hv).2).symm ▸ rfl
  · intro s draw v s' hmax hj h
    unfold StratExponential.delay at h
    cases hm : durMul s.base (2 ^ s.attempt % 2 ^ 32) with
    | none => rw [hm] at h; exact absurd h (by simp)
    | some dur =>
      rw [hm] at h
      rw [hj] at h
      dsimp only at h
      cases hm2 : durMul (s.previous.getD s.base) 3 with
      | none => rw [hm2] at h; exact absurd h (by simp)
      | some hi =>
        rw [hm2] at h
        simp only [Option.map_eq_some'] at h
        obtain ⟨next, hn, hv⟩ := h
        obtain ⟨hv1, hv2⟩ := (Prod.mk.injEq _ _ _ _).mp hv
        rw [hmax] at hv1
        rw [← hv2, ← hv1]

theorem decorrelated_previous_amended_witness :
    (JitterImpl.decorrelated 2 9).jitter 4 none 3 =
      some (5, JitterImpl.decorrelated 2 4) ∧
    JitterImpl.decorrelated 2 4 = JitterImpl.decorrelated 2 4 :=
  ⟨by decide,
    decorrelated_previous_amended.2.1 2 9 4 none 3 5
      (JitterImpl.decorrelated 2 4) (by decide)⟩

/-- C5: when a cap `C` is configured, every delay any jitter variant produces
— for every possible random draw — is at most `C` (and, being a duration, at
least `0`). This holds for all four `src/jitter.rs` implementors and for every
jitter mode of the `Strategy` iteration. -/
theorem jitter_respects_cap :
    (∀ (js : JitterImpl) (delay C draw v : Nat) (js' : JitterImpl),
        js.jitter delay (some C) draw = some (v, js') → v ≤ C) ∧
    (∀ (s : StratExponential) (C draw v : Nat) (s' : StratExponential),
        s.maxDelay = some C → s.delay draw = some (v, s') → v ≤ C) := by
  constructor
  · intro js delay C draw v js' h
    cases js with
    | noJitter =>
      simp only [JitterImpl.jitter, Option.some.injEq, Prod.mk.injEq] at h
      rw [← h.1]
      exact capOf_le_cap delay C
    | full =>
      simp only [JitterImpl.jitter, Option.map_eq_some'] at h
      obtain ⟨a, ha, hv⟩ := h
      obtain ⟨hv1, _⟩ := (Prod.mk.injEq _ _ _ _).mp hv
      have hb := (genRange_bounds ha).2
      rw [← hv1]
      exact le_trans hb (capOf_le_cap delay C)
    | equal =>
      simp only [JitterImpl.jitter, Option.map_eq_some'] at h
      obtain ⟨a, ha, hv⟩ := h
      obtain ⟨hv1, _⟩ := (Prod.mk.injEq _ _ _ _).mp hv
      have hb := (genRange_bounds ha).2
      rw [← hv1]
      exact le_trans hb (capOf_le_cap delay C)
    | decorrelated b p =>
      simp only [JitterImpl.jitter] at h
      cases hm : durMul delay 3 with
      | none => rw [hm] at h; exact absurd h (by simp)
      | some hi =>
        rw [hm] at h
        simp only [Option.map_eq_some'] at h
        obtain ⟨next, hn, hv⟩ := h
        obtain ⟨hv1, _⟩ := (Prod.mk.injEq _ _ _ _).mp hv
        rw [← hv1]
        exact capOf_le_cap next C
  · intro s C draw v s' hmax h
    unfold StratExponential.delay at h
    cases hm : durMul s.base (2 ^ s.attempt % 2 ^ 32) with
    | none => rw [hm] at h; exact absurd h (by simp)
    | some dur =>
      rw [hm] at h
      cases hj : s.jitter with
      | none =>
        rw [hj] at h
        dsimp only at h
        obtain ⟨hv1, _⟩ := (Prod.mk.injEq _ _ _ _).mp
          ((Option.some.injEq _ _).mp h)
        rw [hmax] at hv1
        rw [← hv1]
        exact min_le_left _ _
      | some sj =>
        cases sj with
        | full =>
          rw [hj] at h
          dsimp only at h
          simp only [Option.map_eq_some'] at h
          obtain ⟨a, ha, hv⟩ := h
          obtain ⟨hv1, _⟩ := (Prod.mk.injEq _ _ _ _).mp hv
          have hb := (genRange_bounds ha).2
          rw [hmax] at hb
          simp only [Option.getD] at hb
          rw [← hv1]
          exact le_trans hb (min_le_left _ _)
        | equal =>
          rw [hj] at h
          dsimp only at h
          simp only [Option.map_eq_some'] at h
          obtain ⟨a, ha, hv⟩ := h
          obtain ⟨hv1, _⟩ := (Prod.mk.injEq _ _ _ _).mp hv
          have hb := (genRange_bounds ha).2
          rw [hmax] at hb hv1
          simp only [Option.getD] at hb hv1
          have hmin : min C dur ≤ C := min_le_left _ _
          omega
        | decorrelated =>
          rw [hj] at h
          dsimp only at h
          cases hm2 : durMul (s.previous.getD s.base) 3 with
          | none => rw [hm2] at h; exact absurd h (by simp)
          | some hi =>
            rw [hm2] at h
            simp only [Option.map_eq_some'] at h
            obtain ⟨next, hn, hv⟩ := h
            obtain ⟨hv1, _⟩ := (Prod.mk.injEq _ _ _ _).mp hv
            rw [hmax] at hv1
            dsimp only at hv1
            rw [← hv1]
            exact min_le_left _ _

theorem jitter_respects_cap_witness :
    JitterImpl.full.jitter 10 (some 4) 7 = some (2, JitterImpl.full) ∧ 2 ≤ 4 :=
  ⟨by decide, jitter_respects_cap.1 JitterImpl.full 10 4 7 2 JitterImpl.full (by decide)⟩

/-- C8: `Equal` jitter always returns a duration in
`[capped_delay / 2, capped_delay]`, where `capped_delay` is the nominal delay
clamped to the cap when one is configured — so the result never falls below
half the (capped) computed backoff. The conjunct about the `Strategy`
iteration's `Equal` mode (`half + random(0..=half)`) establishes the same
interval. -/
theorem equal_jitter_bounds :
    (∀ (delay : Nat) (max : Option Nat) (draw v : Nat) (js' : JitterImpl),
        JitterImpl.equal.jitter delay max draw = some (v, js') →
        capOf delay max / 2 ≤ v ∧ v ≤ capOf delay max) ∧
    (∀ (s : StratExponential) (dur draw v : Nat) (s' : StratExponential),
        s.jitter = some StratJitter.equal →
        durMul s.base (2 ^ s.attempt % 2 ^ 32) = some dur →
        s.delay draw = some (v, s') →
        min (s.maxDelay.getD dur) dur / 2 ≤ v ∧
        v ≤ min (s.maxDelay.getD dur) dur) := by
  constructor
  · intro delay max draw v js' h
    simp only [JitterImpl.jitter, Option.map_eq_some'] at h
    obtain ⟨a, ha, hv⟩ := h
    obtain ⟨hv1, _⟩ := (Prod.mk.injEq _ _ _ _).mp hv
    have hb := genRange_bounds ha
    rw [← hv1]
    exact hb
  · intro s dur draw v s' hj hm h
    unfold StratExponential.delay at h
    rw [hm, hj] at h
    dsimp only at h
    simp only [Option.map_eq_some'] at h
    obtain ⟨a, ha, hv⟩ := h
    obtain ⟨hv1, _⟩ := (Prod.mk.injEq _ _ _ _).mp hv
    have hb := genRange_bounds ha
    omega

theorem equal_jitter_bounds_witness :
    JitterImpl.equal.jitter 10 (some 6) 9 = some (4, JitterImpl.equal) ∧
    capOf 10 (some 6) / 2 ≤ 4 ∧ 4 ≤ capOf 10 (some 6) :=
  ⟨by decide,
    equal_jitter_bounds.1 10 (some 6) 9 4 JitterImpl.equal (by decide)⟩

/-- C9: `Linear::delay` returns `base * attempt` (whenever the product is a
representable duration — `Duration * u32` panics on overflow), and in
particular `Linear(base).delay(0) = 0` unconditionally. The `Strategy`
iteration's `Linear`, with no `max_delay` configured, computes the same value
and advances its attempt counter. -/
theorem linear_delay_eq (b a : Nat) (h : b * a ≤ durMax) :
    (BackoffImpl.linear b).delay a = some (b * a) ∧
    (BackoffImpl.linear b).delay 0 = some 0 ∧
    StratLinear.delayFn { attempt := a, delay := b, maxDelay := none } =
      some (b * a, { attempt := a + 1, delay := b, maxDelay := none }) := by
  refine ⟨?_, ?_, ?_⟩
  · simp [BackoffImpl.delay, durMul, h]
  · simp [BackoffImpl.delay, durMul]
  · simp [StratLinear.delayFn, durMul, h]

theorem linear_delay_eq_witness :
    (BackoffImpl.linear 3).delay 4 = some 12 ∧
    (BackoffImpl.linear 3).delay 0 = some 0 ∧
    StratLinear.delayFn { attempt := 4, delay := 3, maxDelay := none } =
      some (12, { attempt := 5, delay := 3, maxDelay := none }) :=
  linear_delay_eq 3 4 (by decide)

/-- C10: `Decorrelated::jitter` samples from `[base, 3 * nominal]` (the
`previous` field having just been overwritten with the nominal delay). When
`3 * nominal < base` — e.g. a zero nominal delay with a nonzero base — the
range is empty and `gen_range` panics (`none`); when `base ≤ 3 * nominal`,
the call totally produces a value sampled from that range (then capped), so
totality requires `base ≤ 3 * nominal`. -/
theorem decorrelated_range_and_empty (b p delay : Nat) (max : Option Nat)
    (draw : Nat) (hfit : delay * 3 ≤ durMax) :
    (delay * 3 < b → (JitterImpl.decorrelated b p).jitter delay max draw = none) ∧
    (b ≤ delay * 3 →
      (JitterImpl.decorrelated b p).jitter delay max draw =
        some (capOf (b + draw % (delay * 3 - b + 1)) max,
          JitterImpl.decorrelated b delay) ∧
      b ≤ b + draw % (delay * 3 - b + 1) ∧
      b + draw % (delay * 3 - b + 1) ≤ delay * 3) := by
  have hm : durMul delay 3 = some (delay * 3) := by simp [durMul, hfit]
  constructor
  · intro hlt
    simp only [JitterImpl.jitter, hm]
    rw [genRange_none hlt]
    rfl
  · intro hle
    simp only [JitterImpl.jitter, hm]
    rw [genRange_some draw hle]
    refine ⟨rfl, Nat.le_add_right _ _, ?_⟩
    have := Nat.mod_lt draw (y := delay * 3 - b + 1) (Nat.succ_pos _)
    omega

theorem decorrelated_range_and_empty_witness :
    (0 : Nat) * 3 < 5 ∧
    (JitterImpl.decorrelated 5 0).jitter 0 none 0 = none :=
  ⟨by decide, (decorrelated_range_and_empty 5 0 0 none 0 (by decide)).1 (by decide)⟩
